import Mathlib

/-!
Shallow embedding of the turn-gap analytics engine of this repository:
`latency_from_utterances.py` (utterance sorting, per-turn gap records,
summary statistics, CLI batch loop) and the FastAPI batch driver in
`main.py` (`process_uploaded_files`).

Modelling conventions:
* An utterance is the record consumed from the diarization provider; its
  `end` field is called `stop` here because `end` is a Lean keyword.
* Python's `None` / `""` placeholders for absent values become `Option`.
* Python floats are modelled exactly as rationals (`ℚ`); `round(x, 2)`
  becomes `round2` below.  All gaps are integers, and every statistic is a
  rational obtained from integer data, so no claim here depends on binary
  floating-point artefacts.  `int(n * 0.95)` is modelled as `n * 95 / 100`
  in `ℕ`, which agrees with the float computation for every feasible list
  length.
* A failed or incomplete transcription (`transcribe_audio` returning
  `None`) is modelled as `none : Option (List Utterance)`; a completed one
  as `some us` where `us` is the transcript's utterance list.
-/

structure Utterance where
  speaker : String
  start : Int
  stop : Int
  text : String
deriving DecidableEq

structure Turn where
  file : String
  turn_index : Nat
  speaker : String
  start_ms : Int
  end_ms : Int
  duration_ms : Int
  text : String
  next_speaker : Option String
  next_start_ms : Option Int
  gap_to_next_ms : Option Int
  speaker_change : Bool
deriving DecidableEq

def dummyUtt : Utterance :=
  { speaker := "", start := 0, stop := 0, text := "" }

def dummyTurn : Turn :=
  { file := "", turn_index := 0, speaker := "", start_ms := 0, end_ms := 0,
    duration_ms := 0, text := "", next_speaker := none, next_start_ms := none,
    gap_to_next_ms := none, speaker_change := false }

/-- The sort key comparison of `sorted(utterances, key=lambda u: u.start)`. -/
def uttLE (a b : Utterance) : Bool := decide (a.start ≤ b.start)

/-- Embeds `sorted(utterances, key=lambda u: u.start)` — Python's sort is
stable, as is `List.mergeSort`. -/
def sortUtterances (us : List Utterance) : List Utterance :=
  us.mergeSort uttLE

/-- The turn dict built for the last index (`else` branch of the loop in
`process_transcript`): `next_*` stay `None`, `speaker_change = False`. -/
def mkLastTurn (file : String) (idx : Nat) (u : Utterance) : Turn :=
  { file := file, turn_index := idx + 1, speaker := u.speaker,
    start_ms := u.start, end_ms := u.stop, duration_ms := u.stop - u.start,
    text := u.text, next_speaker := none, next_start_ms := none,
    gap_to_next_ms := none, speaker_change := false }

/-- The turn dict built for a non-last index `idx` with successor `v`. -/
def mkStepTurn (file : String) (idx : Nat) (u v : Utterance) : Turn :=
  { file := file, turn_index := idx + 1, speaker := u.speaker,
    start_ms := u.start, end_ms := u.stop, duration_ms := u.stop - u.start,
    text := u.text, next_speaker := some v.speaker,
    next_start_ms := some v.start,
    gap_to_next_ms := some (v.start - u.stop),
    speaker_change := decide (u.speaker ≠ v.speaker) }

/-- The indexed loop of `process_transcript` over the sorted utterances. -/
def buildTurnsAux (file : String) : Nat → List Utterance → List Turn
  | _, [] => []
  | idx, [u] => [mkLastTurn file idx u]
  | idx, u :: v :: rest => mkStepTurn file idx u v :: buildTurnsAux file (idx + 1) (v :: rest)

/-- Embeds `process_transcript`: empty utterance lists are reported as no turns;
otherwise the utterances are sorted by start time and walked pairwise. -/
def process_transcript (file : String) (us : List Utterance) : List Turn :=
  if us.isEmpty then [] else buildTurnsAux file 0 (sortUtterances us)

/-- Embeds `round(x, 2)` on exact rationals. -/
def round2 (q : ℚ) : ℚ := ((round (q * 100) : ℤ) : ℚ) / 100

def intLE (a b : Int) : Bool := decide (a ≤ b)

/-- Embeds `sorted(speaker_change_gaps)`. -/
def sortGaps (g : List Int) : List Int := g.mergeSort intLE

/-- Embeds `statistics.median` applied to an already sorted list: middle element
for odd length, mean of the two middle elements for even length. -/
def medianOfSorted (l : List Int) : ℚ :=
  if l.length % 2 = 1 then ((l.getD (l.length / 2) 0 : Int) : ℚ)
  else (((l.getD (l.length / 2 - 1) 0 : Int) : ℚ) + ((l.getD (l.length / 2) 0 : Int) : ℚ)) / 2

structure SummaryStats where
  avg_gap_ms : Option ℚ
  median_gap_ms : Option ℚ
  p95_gap_ms : Option ℚ
  overlap_rate : Option ℚ
  avg_positive_gap_ms : Option ℚ
deriving DecidableEq

/-- The all-empty-string statistics dict returned when the (fallback)
gap set is empty. -/
def emptyStats : SummaryStats :=
  { avg_gap_ms := none, median_gap_ms := none, p95_gap_ms := none,
    overlap_rate := none, avg_positive_gap_ms := none }

/-- The five statistics of `calculate_summary_stats` over the selected
gap list (the code path where `speaker_change_gaps` is non-empty).
Note the code computes `avg_positive_gap_ms = ... if positive_gaps else 0`
and then serializes `"" if not positive_gaps`, so the net result for an
empty positive set is absence, which `none` models. -/
def statsOfGaps (g : List Int) : SummaryStats :=
  let n := g.length
  let sortedGaps := sortGaps g
  let negativeGaps := g.filter (fun x => decide (x < 0))
  let positiveGaps := g.filter (fun x => decide (0 < x))
  { avg_gap_ms := some (round2 ((g.sum : ℚ) / (n : ℚ))),
    median_gap_ms := some (round2 (medianOfSorted sortedGaps)),
    p95_gap_ms := some (round2 ((sortedGaps.getD (min (n * 95 / 100) (n - 1)) 0 : Int) : ℚ)),
    overlap_rate := some (round2 (((negativeGaps.length : ℚ) / (n : ℚ)) * 100)),
    avg_positive_gap_ms :=
      if positiveGaps.isEmpty then none
      else some (round2 ((positiveGaps.sum : ℚ) / (positiveGaps.length : ℚ))) }

/-- Embeds `speaker_change_gaps`: gaps of turns where `speaker_change` is truthy
and the gap is not the empty string. -/
def speakerChangeGaps (turns : List Turn) : List Int :=
  turns.filterMap (fun t => if t.speaker_change then t.gap_to_next_ms else none)

/-- The fallback list: every defined gap, ignoring `speaker_change`. -/
def allGaps (turns : List Turn) : List Int :=
  turns.filterMap (fun t => t.gap_to_next_ms)

/-- The gap list `calculate_summary_stats` actually computes over. -/
def selectedGaps (turns : List Turn) : List Int :=
  if (speakerChangeGaps turns).isEmpty then allGaps turns else speakerChangeGaps turns

/-- The statistics dict of `calculate_summary_stats` for a non-empty turn
list: all-absent when even the fallback gap set is empty. -/
def summaryStatsFor (turns : List Turn) : SummaryStats :=
  if (selectedGaps turns).isEmpty then emptyStats else statsOfGaps (selectedGaps turns)

/-- Embeds `calculate_summary_stats`: `none` models the bare empty dict returned for an
empty turn list (a dict with no statistic keys at all). -/
def calculate_summary_stats (turns : List Turn) : Option SummaryStats :=
  if turns.isEmpty then none else some (summaryStatsFor turns)

/-- Embeds `sum(1 for t in turns if t.get("speaker_change"))`. -/
def count_speaker_changes (turns : List Turn) : Nat :=
  (turns.filter (fun t => t.speaker_change)).length

structure Summary where
  file : String
  turns : Nat
  speaker_changes : Nat
  stats : SummaryStats
deriving DecidableEq

/-- One iteration of the per-file loop shared by both drivers (minus I/O):
a failed transcription or an empty turn list yields no summary row;
otherwise the summary dict of `main` lines 293-298 is built.  On the
non-empty path `calculate_summary_stats` returns exactly
`some (summaryStatsFor turns)` (see `calculate_summary_stats_of_ne_nil`). -/
def processFile (f : String) (tr : Option (List Utterance)) : Option Summary :=
  match tr with
  | none => none
  | some us =>
    let turns := process_transcript f us
    if turns.isEmpty then none
    else some { file := f, turns := turns.length,
                speaker_changes := count_speaker_changes turns,
                stats := summaryStatsFor turns }

/-- The CLI batch loop of `latency_from_utterances.main`: a file whose
transcription failed, or which produced no turns, is skipped with
`continue` and the loop moves on to the next file. -/
def mainLoop (batch : List (String × Option (List Utterance))) : List Summary :=
  batch.filterMap (fun fileTr => processFile fileTr.1 fileTr.2)

/-- The FastAPI batch loop `process_uploaded_files` of `main.py`: a failed
transcription raises `HTTPException` (modelled as `Except.error`), which
aborts the whole request; only the no-utterances case is skipped.  (The
unsupported-extension check, which also raises, is not modelled: every file
in a batch here is assumed to have a supported extension.) -/
def process_uploaded_files : List (String × Option (List Utterance)) → Except String (List Summary)
  | [] => Except.ok []
  | (name, none) :: _ => Except.error ("Transcription failed for file: " ++ name)
  | (name, some us) :: rest =>
    let turns := process_transcript name us
    if turns.isEmpty then process_uploaded_files rest
    else
      (process_uploaded_files rest).map
        (fun tail =>
          { file := name, turns := turns.length,
            speaker_changes := count_speaker_changes turns,
            stats := summaryStatsFor turns } :: tail)

/-- One full engine run on one file: Normalizer → Transformer → Aggregator. -/
def runEngine (f : String) (us : List Utterance) : List Turn × Option SummaryStats :=
  (process_transcript f us, calculate_summary_stats (process_transcript f us))

/-- Spec-side description of the primary gap set: "the gap_to_next_ms of
every turn whose speaker_change is true". -/
def specPrimaryGaps (turns : List Turn) : List Int :=
  (turns.filter (fun t => t.speaker_change)).filterMap (fun t => t.gap_to_next_ms)

/-! ### Helper lemmas -/

theorem buildTurnsAux_length (f : String) :
    ∀ (idx : Nat) (us : List Utterance), (buildTurnsAux f idx us).length = us.length
  | _, [] => rfl
  | _, [_] => rfl
  | idx, _ :: v :: rest => by
    simp only [buildTurnsAux, List.length_cons]
    rw [buildTurnsAux_length f (idx + 1) (v :: rest)]
    simp

theorem buildTurnsAux_ne_nil (f : String) (idx : Nat) (us : List Utterance)
    (h : us ≠ []) : buildTurnsAux f idx us ≠ [] := by
  intro hn
  have := buildTurnsAux_length f idx us
  rw [hn] at this
  simp only [List.length_nil] at this
  exact h (List.eq_nil_of_length_eq_zero this.symm)

theorem getLast?_cons_of_ne_nil {α : Type} (a : α) (l : List α) (h : l ≠ []) :
    (a :: l).getLast? = l.getLast? := by
  cases l with
  | nil => exact absurd rfl h
  | cons b t => exact List.getLast?_cons_cons

theorem buildTurnsAux_getLast (f : String) :
    ∀ (idx : Nat) (us : List Utterance), us ≠ [] →
    ∃ t, (buildTurnsAux f idx us).getLast? = some t ∧
      t.speaker_change = false ∧ t.next_speaker = none ∧
      t.next_start_ms = none ∧ t.gap_to_next_ms = none
  | idx, [], h => absurd rfl h
  | idx, [u], _ => ⟨mkLastTurn f idx u, rfl, rfl, rfl, rfl, rfl⟩
  | idx, u :: v :: rest, _ => by
    obtain ⟨t, ht, h1, h2, h3, h4⟩ :=
      buildTurnsAux_getLast f (idx + 1) (v :: rest) (by simp)
    refine ⟨t, ?_, h1, h2, h3, h4⟩
    rw [buildTurnsAux,
      getLast?_cons_of_ne_nil _ _ (buildTurnsAux_ne_nil f (idx + 1) (v :: rest) (by simp))]
    exact ht

theorem buildTurnsAux_getD_step (f : String) :
    ∀ (idx : Nat) (us : List Utterance) (i : Nat), i + 1 < us.length →
    (buildTurnsAux f idx us).getD i dummyTurn =
      mkStepTurn f (idx + i) (us.getD i dummyUtt) (us.getD (i + 1) dummyUtt)
  | idx, [], i, h => by simp at h
  | idx, [u], i, h => by simp at h
  | idx, u :: v :: rest, 0, _ => by simp [buildTurnsAux]
  | idx, u :: v :: rest, i + 1, h => by
    have hlt : i + 1 < (v :: rest).length := by
      simp only [List.length_cons] at h ⊢
      omega
    have := buildTurnsAux_getD_step f (idx + 1) (v :: rest) i hlt
    simp only [buildTurnsAux, List.getD_cons_succ]
    rw [this]
    congr 1
    omega

theorem buildTurnsAux_gap_none_iff (f : String) :
    ∀ (idx : Nat) (us : List Utterance) (i : Nat), i < us.length →
    (((buildTurnsAux f idx us).getD i dummyTurn).gap_to_next_ms = none ↔
      i = us.length - 1)
  | idx, [], i, h => by simp at h
  | idx, [u], 0, _ => by simp [buildTurnsAux, mkLastTurn]
  | idx, [u], i + 1, h => by simp at h
  | idx, u :: v :: rest, 0, _ => by
    simp [buildTurnsAux, mkStepTurn]
  | idx, u :: v :: rest, i + 1, h => by
    have hlt : i < (v :: rest).length := by
      simp only [List.length_cons] at h ⊢
      omega
    have := buildTurnsAux_gap_none_iff f (idx + 1) (v :: rest) i hlt
    simp only [buildTurnsAux, List.getD_cons_succ]
    rw [this]
    simp only [List.length_cons]
    omega

theorem buildTurnsAux_change_imp_gap (f : String) :
    ∀ (idx : Nat) (us : List Utterance) (t : Turn), t ∈ buildTurnsAux f idx us →
    t.speaker_change = true → t.gap_to_next_ms ≠ none
  | idx, [], t, ht, _ => by simp [buildTurnsAux] at ht
  | idx, [u], t, ht, hc => by
    simp only [buildTurnsAux, List.mem_singleton] at ht
    rw [ht] at hc
    simp [mkLastTurn] at hc
  | idx, u :: v :: rest, t, ht, hc => by
    simp only [buildTurnsAux, List.mem_cons] at ht
    rcases ht with ht | ht
    · rw [ht]
      simp [mkStepTurn]
    · exact buildTurnsAux_change_imp_gap f (idx + 1) (v :: rest) t ht hc

theorem count_speaker_changes_cons (t : Turn) (ts : List Turn) :
    count_speaker_changes (t :: ts) ≤ count_speaker_changes ts + 1 := by
  simp only [count_speaker_changes, List.filter_cons]
  split
  · simp
  · omega

theorem count_speaker_changes_buildTurnsAux (f : String) :
    ∀ (idx : Nat) (us : List Utterance),
    count_speaker_changes (buildTurnsAux f idx us) ≤ us.length - 1
  | idx, [] => by simp [buildTurnsAux, count_speaker_changes]
  | idx, [u] => by simp [buildTurnsAux, count_speaker_changes, mkLastTurn]
  | idx, u :: v :: rest => by
    have h1 := count_speaker_changes_buildTurnsAux f (idx + 1) (v :: rest)
    have h2 := count_speaker_changes_cons (mkStepTurn f idx u v)
      (buildTurnsAux f (idx + 1) (v :: rest))
    rw [buildTurnsAux]
    simp only [List.length_cons] at h1 ⊢
    omega

theorem uttLE_trans (a b c : Utterance) :
    uttLE a b = true → uttLE b c = true → uttLE a c = true := by
  simp only [uttLE, decide_eq_true_eq]
  omega

theorem uttLE_total (a b : Utterance) : (uttLE a b || uttLE b a) = true := by
  simp only [uttLE, Bool.or_eq_true, decide_eq_true_eq]
  omega

theorem intLE_trans (a b c : Int) :
    intLE a b = true → intLE b c = true → intLE a c = true := by
  simp only [intLE, decide_eq_true_eq]
  omega

theorem intLE_total (a b : Int) : (intLE a b || intLE b a) = true := by
  simp only [intLE, Bool.or_eq_true, decide_eq_true_eq]
  omega

theorem sortUtterances_perm (us : List Utterance) : (sortUtterances us).Perm us :=
  List.mergeSort_perm us uttLE

theorem sortUtterances_length (us : List Utterance) :
    (sortUtterances us).length = us.length :=
  (sortUtterances_perm us).length_eq

theorem sortUtterances_pairwise (us : List Utterance) :
    (sortUtterances us).Pairwise (fun a b => a.start ≤ b.start) :=
  (List.sorted_mergeSort uttLE_trans uttLE_total us).imp
    (fun h => by simpa [uttLE] using h)

theorem sortUtterances_of_sorted (us : List Utterance)
    (h : us.Pairwise (fun a b => a.start ≤ b.start)) : sortUtterances us = us :=
  List.mergeSort_of_sorted (h.imp (fun hab => by simpa [uttLE] using hab))

theorem sortUtterances_filter_start (us : List Utterance) (k : Int) :
    (sortUtterances us).filter (fun u => decide (u.start = k)) =
      us.filter (fun u => decide (u.start = k)) := by
  have hsub : (us.filter (fun u => decide (u.start = k))).Sublist (sortUtterances us) := by
    apply List.sublist_mergeSort uttLE_trans uttLE_total
    · apply List.pairwise_of_forall_mem_list
      intro a ha b hb
      have ha' := (List.mem_filter.mp ha).2
      have hb' := (List.mem_filter.mp hb).2
      simp only [decide_eq_true_eq] at ha' hb'
      simp [uttLE, ha', hb']
    · exact List.filter_sublist us
  have hidem : (us.filter (fun u => decide (u.start = k))).filter
      (fun u => decide (u.start = k)) = us.filter (fun u => decide (u.start = k)) :=
    List.filter_eq_self.mpr (fun a ha => (List.mem_filter.mp ha).2)
  have h1 : (us.filter (fun u => decide (u.start = k))).Sublist
      ((sortUtterances us).filter (fun u => decide (u.start = k))) :=
    hidem ▸ hsub.filter (fun u => decide (u.start = k))
  have hlen : ((sortUtterances us).filter (fun u => decide (u.start = k))).length =
      (us.filter (fun u => decide (u.start = k))).length :=
    (List.Perm.filter (fun u => decide (u.start = k)) (sortUtterances_perm us)).length_eq
  exact (h1.eq_of_length hlen.symm).symm

theorem sortGaps_perm (g : List Int) : (sortGaps g).Perm g :=
  List.mergeSort_perm g intLE

theorem sortGaps_pairwise (g : List Int) :
    (sortGaps g).Pairwise (fun a b : Int => a ≤ b) :=
  (List.sorted_mergeSort intLE_trans intLE_total g).imp
    (fun h => by simpa [intLE] using h)

theorem le_getD_last_of_pairwise :
    ∀ (l : List Int), l.Pairwise (fun a b : Int => a ≤ b) →
    ∀ x ∈ l, x ≤ l.getD (l.length - 1) 0
  | [], _, x, hx => by simp at hx
  | [a], _, x, hx => by
    simp only [List.mem_singleton] at hx
    simp [hx]
  | a :: b :: t, h, x, hx => by
    have hpc := List.pairwise_cons.mp h
    have hstep : (a :: b :: t).getD ((a :: b :: t).length - 1) 0 =
        (b :: t).getD ((b :: t).length - 1) 0 := by
      simp only [List.length_cons]
      rw [show t.length + 1 + 1 - 1 = (t.length + 1 - 1) + 1 by omega,
        List.getD_cons_succ]
    rcases List.mem_cons.mp hx with rfl | hx'
    · have hmem : (b :: t).getD ((b :: t).length - 1) 0 ∈ b :: t := by
        have hlt : (b :: t).length - 1 < (b :: t).length := by simp
        rw [List.getD_eq_getElem?_getD, List.getElem?_eq_getElem hlt]
        exact List.getElem_mem hlt
      rw [hstep]
      exact hpc.1 _ hmem
    · rw [hstep]
      exact le_getD_last_of_pairwise (b :: t) hpc.2 x hx'

theorem speakerChangeGaps_eq_spec (turns : List Turn) :
    speakerChangeGaps turns = specPrimaryGaps turns := by
  induction turns with
  | nil => rfl
  | cons t ts ih =>
    cases hc : t.speaker_change <;>
      simp [speakerChangeGaps, specPrimaryGaps, List.filterMap_cons, List.filter_cons,
        hc, speakerChangeGaps, specPrimaryGaps] at ih ⊢ <;>
      cases hg : t.gap_to_next_ms <;> simp [hg, ih]

theorem calculate_summary_stats_of_ne_nil (turns : List Turn) (h : turns ≠ []) :
    calculate_summary_stats turns = some (summaryStatsFor turns) := by
  simp [calculate_summary_stats, h]

theorem round2_intCast (k : Int) : round2 ((k : ℚ)) = (k : ℚ) := by
  simp only [round2]
  rw [show ((k : ℚ) * 100) = ((k * 100 : ℤ) : ℚ) by push_cast; ring, round_intCast]
  push_cast
  field_simp

theorem floor_p95 (n : ℕ) : ⌊(n : ℚ) * (95 / 100)⌋₊ = n * 95 / 100 := by
  rw [show ((n : ℚ) * (95 / 100)) = ((n * 95 : ℕ) : ℚ) / ((100 : ℕ) : ℚ) by
    push_cast; ring]
  rw [Nat.floor_div_nat, Nat.floor_natCast]

theorem process_transcript_eq (f : String) (us : List Utterance) (h : us ≠ []) :
    process_transcript f us = buildTurnsAux f 0 (sortUtterances us) := by
  simp [process_transcript, h]

theorem process_transcript_length (f : String) (us : List Utterance) :
    (process_transcript f us).length = us.length := by
  by_cases h : us = []
  · simp [process_transcript, h]
  · rw [process_transcript_eq f us h, buildTurnsAux_length, sortUtterances_length]

theorem process_transcript_ne_nil (f : String) (us : List Utterance) (h : us ≠ []) :
    process_transcript f us ≠ [] := by
  intro hn
  have := process_transcript_length f us
  rw [hn] at this
  exact h (List.eq_nil_of_length_eq_zero this.symm)

/-! ### Claim theorems -/

/-- C6: For every non-empty utterance list, the last Turn Record produced by
the Turn Transformer (`process_transcript`) has `speaker_change = false` and
absent `next_speaker`, `next_start_ms` and `gap_to_next_ms`, regardless of
its speaker's identity. -/
theorem last_turn_terminal (f : String) (us : List Utterance) (h : us ≠ []) :
    ∃ t, (process_transcript f us).getLast? = some t ∧
      t.speaker_change = false ∧ t.next_speaker = none ∧
      t.next_start_ms = none ∧ t.gap_to_next_ms = none := by
  rw [process_transcript_eq f us h]
  apply buildTurnsAux_getLast
  intro hn
  have hl := sortUtterances_length us
  rw [hn] at hl
  exact h (List.eq_nil_of_length_eq_zero hl.symm)

theorem last_turn_terminal_witness :
    ([⟨"A", 0, 500, "hola"⟩, ⟨"B", 600, 900, "si"⟩] : List Utterance) ≠ [] ∧
    ∃ t, (process_transcript "a.mp3"
        [⟨"A", 0, 500, "hola"⟩, ⟨"B", 600, 900, "si"⟩]).getLast? = some t ∧
      t.speaker_change = false ∧ t.next_speaker = none ∧
      t.next_start_ms = none ∧ t.gap_to_next_ms = none :=
  ⟨by simp, last_turn_terminal "a.mp3" _ (by simp)⟩

/-- C7: For every sorted utterance sequence and every non-last index `i`,
the Turn Record at `i` has `gap_to_next_ms` equal to the start of utterance
`i+1` minus the end of utterance `i` (negative and zero values passed
through unclamped, as the value is a plain integer difference), and
`speaker_change` is true iff the two speakers differ. -/
theorem gap_formula (f : String) (us : List Utterance)
    (hs : us.Pairwise (fun a b => a.start ≤ b.start)) (i : Nat)
    (hi : i + 1 < us.length) :
    ((process_transcript f us).getD i dummyTurn).gap_to_next_ms =
      some ((us.getD (i + 1) dummyUtt).start - (us.getD i dummyUtt).stop) ∧
    ((process_transcript f us).getD i dummyTurn).speaker_change =
      decide ((us.getD i dummyUtt).speaker ≠ (us.getD (i + 1) dummyUtt).speaker) := by
  have hne : us ≠ [] := by
    intro hn
    rw [hn] at hi
    simp at hi
  rw [process_transcript_eq f us hne, sortUtterances_of_sorted us hs,
    buildTurnsAux_getD_step f 0 us i hi]
  exact ⟨rfl, rfl⟩

theorem gap_formula_witness :
    ([⟨"A", 0, 1000, "x"⟩, ⟨"B", 900, 1800, "y"⟩] : List Utterance).Pairwise
      (fun a b => a.start ≤ b.start) ∧
    (0 + 1 < ([⟨"A", 0, 1000, "x"⟩, ⟨"B", 900, 1800, "y"⟩] : List Utterance).length) ∧
    (((process_transcript "a.mp3" [⟨"A", 0, 1000, "x"⟩, ⟨"B", 900, 1800, "y"⟩]).getD 0
        dummyTurn).gap_to_next_ms =
      some ((([⟨"A", 0, 1000, "x"⟩, ⟨"B", 900, 1800, "y"⟩] : List Utterance).getD (0 + 1)
          dummyUtt).start -
        (([⟨"A", 0, 1000, "x"⟩, ⟨"B", 900, 1800, "y"⟩] : List Utterance).getD 0 dummyUtt).stop) ∧
    ((process_transcript "a.mp3" [⟨"A", 0, 1000, "x"⟩, ⟨"B", 900, 1800, "y"⟩]).getD 0
        dummyTurn).speaker_change =
      decide ((([⟨"A", 0, 1000, "x"⟩, ⟨"B", 900, 1800, "y"⟩] : List Utterance).getD 0
          dummyUtt).speaker ≠
        (([⟨"A", 0, 1000, "x"⟩, ⟨"B", 900, 1800, "y"⟩] : List Utterance).getD (0 + 1)
          dummyUtt).speaker)) :=
  ⟨by simp, by simp,
    gap_formula "a.mp3" [⟨"A", 0, 1000, "x"⟩, ⟨"B", 900, 1800, "y"⟩] (by simp) 0 (by simp)⟩

/-- C10: In every Turn Record sequence produced by the Turn Transformer on a
non-empty utterance list, every turn with `speaker_change = true` has a
defined `gap_to_next_ms`; a turn's gap is undefined exactly at the last
index, the last turn's `speaker_change` is false, and the speaker-change
count is at most `turns − 1`. -/
theorem turn_gap_invariants (f : String) (us : List Utterance) (h : us ≠ []) :
    (∀ t ∈ process_transcript f us, t.speaker_change = true → t.gap_to_next_ms ≠ none) ∧
    (∀ i, i < (process_transcript f us).length →
      (((process_transcript f us).getD i dummyTurn).gap_to_next_ms = none ↔
        i = (process_transcript f us).length - 1)) ∧
    (∃ t, (process_transcript f us).getLast? = some t ∧ t.speaker_change = false) ∧
    count_speaker_changes (process_transcript f us) ≤
      (process_transcript f us).length - 1 := by
  have hsne : sortUtterances us ≠ [] := by
    intro hn
    have hl := sortUtterances_length us
    rw [hn] at hl
    exact h (List.eq_nil_of_length_eq_zero hl.symm)
  rw [process_transcript_eq f us h]
  refine ⟨?_, ?_, ?_, ?_⟩
  · intro t ht
    exact buildTurnsAux_change_imp_gap f 0 _ t ht
  · intro i hi
    rw [buildTurnsAux_length] at hi ⊢
    exact buildTurnsAux_gap_none_iff f 0 _ i hi
  · obtain ⟨t, ht, h1, _, _, _⟩ := buildTurnsAux_getLast f 0 _ hsne
    exact ⟨t, ht, h1⟩
  · rw [buildTurnsAux_length]
    exact count_speaker_changes_buildTurnsAux f 0 (sortUtterances us)

theorem turn_gap_invariants_witness :
    ([⟨"A", 0, 1000, "x"⟩, ⟨"B", 900, 1800, "y"⟩] : List Utterance) ≠ [] ∧
    ((∀ t ∈ process_transcript "a.mp3" [⟨"A", 0, 1000, "x"⟩, ⟨"B", 900, 1800, "y"⟩],
        t.speaker_change = true → t.gap_to_next_ms ≠ none) ∧
      (∀ i, i < (process_transcript "a.mp3"
          [⟨"A", 0, 1000, "x"⟩, ⟨"B", 900, 1800, "y"⟩]).length →
        (((process_transcript "a.mp3"
            [⟨"A", 0, 1000, "x"⟩, ⟨"B", 900, 1800, "y"⟩]).getD i dummyTurn).gap_to_next_ms = none ↔
          i = (process_transcript "a.mp3"
            [⟨"A", 0, 1000, "x"⟩, ⟨"B", 900, 1800, "y"⟩]).length - 1)) ∧
      (∃ t, (process_transcript "a.mp3"
          [⟨"A", 0, 1000, "x"⟩, ⟨"B", 900, 1800, "y"⟩]).getLast? = some t ∧
        t.speaker_change = false) ∧
      count_speaker_changes (process_transcript "a.mp3"
          [⟨"A", 0, 1000, "x"⟩, ⟨"B", 900, 1800, "y"⟩]) ≤
        (process_transcript "a.mp3"
          [⟨"A", 0, 1000, "x"⟩, ⟨"B", 900, 1800, "y"⟩]).length - 1) :=
  ⟨by simp, turn_gap_invariants "a.mp3" _ (by simp)⟩

/-- C8: The Utterance Normalizer returns the same items (a permutation),
sorted ascending by start time, and the sort is stable: for every start
key, the utterances carrying that key appear in the output in exactly
their relative input order. -/
theorem normalizer_stable_sort (us : List Utterance) :
    (sortUtterances us).Perm us ∧
    (sortUtterances us).Pairwise (fun a b => a.start ≤ b.start) ∧
    ∀ k : Int, (sortUtterances us).filter (fun u => decide (u.start = k)) =
      us.filter (fun u => decide (u.start = k)) :=
  ⟨sortUtterances_perm us, sortUtterances_pairwise us,
    fun k => sortUtterances_filter_start us k⟩

/-- C9: On an already-sorted utterance list the engine is deterministic and
idempotent: a second run (`runEngine f us = runEngine f us`) yields the
identical Turn Records and Summary Record, the Normalizer leaves the input
unchanged, and re-running the engine on the normalized list changes
nothing. -/
theorem engine_idempotent_on_sorted (f : String) (us : List Utterance)
    (hs : us.Pairwise (fun a b => a.start ≤ b.start)) :
    runEngine f us = runEngine f us ∧
    sortUtterances us = us ∧
    runEngine f (sortUtterances us) = runEngine f us := by
  refine ⟨rfl, sortUtterances_of_sorted us hs, ?_⟩
  rw [sortUtterances_of_sorted us hs]

theorem engine_idempotent_on_sorted_witness :
    ([⟨"A", 0, 1000, "x"⟩, ⟨"B", 900, 1800, "y"⟩] : List Utterance).Pairwise
      (fun a b => a.start ≤ b.start) ∧
    (runEngine "a.mp3" [⟨"A", 0, 1000, "x"⟩, ⟨"B", 900, 1800, "y"⟩] =
      runEngine "a.mp3" [⟨"A", 0, 1000, "x"⟩, ⟨"B", 900, 1800, "y"⟩] ∧
    sortUtterances [⟨"A", 0, 1000, "x"⟩, ⟨"B", 900, 1800, "y"⟩] =
      [⟨"A", 0, 1000, "x"⟩, ⟨"B", 900, 1800, "y"⟩] ∧
    runEngine "a.mp3" (sortUtterances [⟨"A", 0, 1000, "x"⟩, ⟨"B", 900, 1800, "y"⟩]) =
      runEngine "a.mp3" [⟨"A", 0, 1000, "x"⟩, ⟨"B", 900, 1800, "y"⟩]) :=
  ⟨by simp, engine_idempotent_on_sorted "a.mp3" _ (by simp)⟩

/-- C2: For every non-empty Turn Record sequence, the gap set the Summary
Aggregator uses is the `gap_to_next_ms` of every turn whose
`speaker_change` is true; if that set is empty the speaker-change filter is
dropped and every defined gap is used instead; and the statistics dict is
computed over whichever set was selected. -/
theorem gap_set_selection (turns : List Turn) (h : turns ≠ []) :
    selectedGaps turns =
      (if specPrimaryGaps turns = [] then allGaps turns else specPrimaryGaps turns) ∧
    (selectedGaps turns ≠ [] →
      summaryStatsFor turns = statsOfGaps (selectedGaps turns)) ∧
    calculate_summary_stats turns = some (summaryStatsFor turns) := by
  refine ⟨?_, ?_, calculate_summary_stats_of_ne_nil turns h⟩
  · simp only [selectedGaps, speakerChangeGaps_eq_spec]
    by_cases he : specPrimaryGaps turns = []
    · simp [he]
    · simp [he, List.isEmpty_iff]
  · intro hne
    simp only [summaryStatsFor]
    rw [if_neg]
    simpa [List.isEmpty_iff] using hne

theorem gap_set_selection_witness :
    ([⟨"a.mp3", 1, "A", 0, 1000, 1000, "x", some "B", some 1100, some 100, true⟩,
      ⟨"a.mp3", 2, "B", 1100, 1800, 700, "y", none, none, none, false⟩] : List Turn) ≠ [] ∧
    (selectedGaps
        [⟨"a.mp3", 1, "A", 0, 1000, 1000, "x", some "B", some 1100, some 100, true⟩,
         ⟨"a.mp3", 2, "B", 1100, 1800, 700, "y", none, none, none, false⟩] =
      (if specPrimaryGaps
          [⟨"a.mp3", 1, "A", 0, 1000, 1000, "x", some "B", some 1100, some 100, true⟩,
           ⟨"a.mp3", 2, "B", 1100, 1800, 700, "y", none, none, none, false⟩] = []
        then allGaps
          [⟨"a.mp3", 1, "A", 0, 1000, 1000, "x", some "B", some 1100, some 100, true⟩,
           ⟨"a.mp3", 2, "B", 1100, 1800, 700, "y", none, none, none, false⟩]
        else specPrimaryGaps
          [⟨"a.mp3", 1, "A", 0, 1000, 1000, "x", some "B", some 1100, some 100, true⟩,
           ⟨"a.mp3", 2, "B", 1100, 1800, 700, "y", none, none, none, false⟩]) ∧
    (selectedGaps
        [⟨"a.mp3", 1, "A", 0, 1000, 1000, "x", some "B", some 1100, some 100, true⟩,
         ⟨"a.mp3", 2, "B", 1100, 1800, 700, "y", none, none, none, false⟩] ≠ [] →
      summaryStatsFor
          [⟨"a.mp3", 1, "A", 0, 1000, 1000, "x", some "B", some 1100, some 100, true⟩,
           ⟨"a.mp3", 2, "B", 1100, 1800, 700, "y", none, none, none, false⟩] =
        statsOfGaps (selectedGaps
          [⟨"a.mp3", 1, "A", 0, 1000, 1000, "x", some "B", some 1100, some 100, true⟩,
           ⟨"a.mp3", 2, "B", 1100, 1800, 700, "y", none, none, none, false⟩])) ∧
    calculate_summary_stats
        [⟨"a.mp3", 1, "A", 0, 1000, 1000, "x", some "B", some 1100, some 100, true⟩,
         ⟨"a.mp3", 2, "B", 1100, 1800, 700, "y", none, none, none, false⟩] =
      some (summaryStatsFor
        [⟨"a.mp3", 1, "A", 0, 1000, 1000, "x", some "B", some 1100, some 100, true⟩,
         ⟨"a.mp3", 2, "B", 1100, 1800, 700, "y", none, none, none, false⟩])) :=
  ⟨by simp, gap_set_selection _ (by simp)⟩

/-- C4: For every non-empty selected gap set `G` of size `n`, the reported
p95 is the element at sorted (0-based) index `min(⌊n × 0.95⌋, n − 1)` of
`G` sorted ascending (nearest-rank, not interpolated); for `n = 5` it is a
maximum of `G`. -/
theorem p95_nearest_rank (g : List Int) (h : g ≠ []) :
    (statsOfGaps g).p95_gap_ms =
      some (((sortGaps g).getD (min (⌊(g.length : ℚ) * (95 / 100)⌋₊) (g.length - 1)) 0 : Int) : ℚ) ∧
    (g.length = 5 → ∃ m : Int, m ∈ g ∧ (∀ x ∈ g, x ≤ m) ∧
      (statsOfGaps g).p95_gap_ms = some ((m : Int) : ℚ)) := by
  have hfield : (statsOfGaps g).p95_gap_ms =
      some (round2 (((sortGaps g).getD (min (g.length * 95 / 100) (g.length - 1)) 0 : Int) : ℚ)) :=
    rfl
  have hlen : (sortGaps g).length = g.length := (sortGaps_perm g).length_eq
  constructor
  · rw [hfield, round2_intCast, floor_p95]
  · intro h5
    have hidx : min (g.length * 95 / 100) (g.length - 1) = (sortGaps g).length - 1 := by
      rw [hlen, h5]
      decide
    have hlt : (sortGaps g).length - 1 < (sortGaps g).length := by
      rw [hlen, h5]
      omega
    have hmem : (sortGaps g).getD ((sortGaps g).length - 1) 0 ∈ g := by
      rw [List.getD_eq_getElem?_getD, List.getElem?_eq_getElem hlt]
      exact (sortGaps_perm g).mem_iff.mp (List.getElem_mem hlt)
    refine ⟨(sortGaps g).getD ((sortGaps g).length - 1) 0, hmem, ?_, ?_⟩
    · intro x hx
      exact le_getD_last_of_pairwise (sortGaps g) (sortGaps_pairwise g) x
        ((sortGaps_perm g).mem_iff.mpr hx)
    · rw [hfield, round2_intCast, hidx]

theorem p95_nearest_rank_witness :
    ([3, -1, 7, 0, 5] : List Int) ≠ [] ∧
    ((statsOfGaps [3, -1, 7, 0, 5]).p95_gap_ms =
      some ((([3, -1, 7, 0, 5] : List Int).mergeSort intLE).getD
        (min (⌊(([3, -1, 7, 0, 5] : List Int).length : ℚ) * (95 / 100)⌋₊)
          (([3, -1, 7, 0, 5] : List Int).length - 1)) 0 : Int) ∧
    (([3, -1, 7, 0, 5] : List Int).length = 5 → ∃ m : Int, m ∈ ([3, -1, 7, 0, 5] : List Int) ∧
      (∀ x ∈ ([3, -1, 7, 0, 5] : List Int), x ≤ m) ∧
      (statsOfGaps [3, -1, 7, 0, 5]).p95_gap_ms = some ((m : Int) : ℚ))) :=
  ⟨by simp, p95_nearest_rank [3, -1, 7, 0, 5] (by simp)⟩

/-- C5: For every non-empty selected gap set `G`, `avg_positive_gap` is the
arithmetic mean of the strictly-positive elements of `G` rounded to 2
decimals, and when `G` has no strictly-positive element it is reported as
absent — in particular never as zero. -/
theorem avg_positive_gap_spec (g : List Int) (h : g ≠ []) :
    ((g.filter (fun x => decide (0 < x))) ≠ [] →
      (statsOfGaps g).avg_positive_gap_ms =
        some (round2 (((g.filter (fun x => decide (0 < x))).sum : ℚ) /
          ((g.filter (fun x => decide (0 < x))).length : ℚ)))) ∧
    ((g.filter (fun x => decide (0 < x))) = [] →
      (statsOfGaps g).avg_positive_gap_ms = none ∧
      (statsOfGaps g).avg_positive_gap_ms ≠ some 0) := by
  constructor
  · intro hp
    simp [statsOfGaps, List.isEmpty_iff, hp]
  · intro hp
    constructor
    · simp [statsOfGaps, List.isEmpty_iff, hp]
    · simp [statsOfGaps, List.isEmpty_iff, hp]

theorem avg_positive_gap_spec_witness :
    ([2, -3] : List Int) ≠ [] ∧
    (((([2, -3] : List Int).filter (fun x => decide (0 < x))) ≠ [] →
      (statsOfGaps [2, -3]).avg_positive_gap_ms =
        some (round2 (((([2, -3] : List Int).filter (fun x => decide (0 < x))).sum : ℚ) /
          ((([2, -3] : List Int).filter (fun x => decide (0 < x))).length : ℚ)))) ∧
    ((([2, -3] : List Int).filter (fun x => decide (0 < x))) = [] →
      (statsOfGaps [2, -3]).avg_positive_gap_ms = none ∧
      (statsOfGaps [2, -3]).avg_positive_gap_ms ≠ some 0)) :=
  ⟨by simp, avg_positive_gap_spec [2, -3] (by simp)⟩

theorem except_map_error {ε α β : Type} (f : α → β) (e : ε) :
    Except.map f (Except.error e : Except ε α) = Except.error e := rfl

/-- C1 counterexample: in the HTTP batch driver `process_uploaded_files`
(`main.py` lines 66-71) a transcription failure of one file raises and
aborts the whole request — the sibling file `b.mp3`, whose transcription
succeeded with two utterances, is not processed or summarized. -/
theorem upload_batch_aborts_on_failure :
    process_uploaded_files
      [("a.mp3", none),
       ("b.mp3", some [⟨"A", 0, 1000, "hola"⟩, ⟨"B", 1200, 2000, "si"⟩])] =
      Except.error "Transcription failed for file: a.mp3" := rfl

/-- C1 amended: in the CLI batch driver (`latency_from_utterances.main`) a
transcription failure is skipped and every sibling file is still processed
and summarized independently; in the HTTP driver (`main.process_uploaded_files`)
a transcription failure aborts the whole batch with an error, so no sibling
summaries are returned. -/
theorem batch_failure_isolation_amended
    (pre post : List (String × Option (List Utterance))) (name : String) :
    mainLoop (pre ++ (name, none) :: post) = mainLoop (pre ++ post) ∧
    ∃ e, process_uploaded_files (pre ++ (name, none) :: post) = Except.error e := by
  constructor
  · simp [mainLoop, List.filterMap_append, List.filterMap_cons, processFile]
  · induction pre with
    | nil => exact ⟨_, rfl⟩
    | cons p pre ih =>
      obtain ⟨e, he⟩ := ih
      obtain ⟨pname, ptr⟩ := p
      cases ptr with
      | none => exact ⟨_, rfl⟩
      | some us =>
        refine ⟨e, ?_⟩
        show process_uploaded_files
          ((pname, some us) :: (pre ++ (name, none) :: post)) = Except.error e
        simp only [process_uploaded_files]
        split
        · exact he
        · rw [he, except_map_error]

/-- C3 counterexample: a file whose transcript has zero utterances produces
zero turns, and the per-file loop (`main` lines 283-284, and likewise
`main.py` lines 76-77) skips it entirely: no Summary Record carrying
`turns = 0` is ever emitted, contradicting the claim for the zero-turn
case. -/
theorem zero_turn_file_has_no_summary :
    processFile "a.mp3" (some []) = none := rfl

/-- C3 amended: for a one-turn file (the only non-empty case whose fallback
gap set is empty) the Summary Record carries `turns = 1` and
`speaker_changes = 0` while all five statistics are absent; for a zero-turn
file no Summary Record is emitted at all. -/
theorem empty_fallback_summary_amended (f : String) (us : List Utterance)
    (h : us.length = 1) :
    processFile f (some us) =
      some { file := f, turns := 1, speaker_changes := 0, stats := emptyStats } ∧
    processFile f (some []) = none := by
  obtain ⟨u, rfl⟩ : ∃ u, us = [u] := by
    cases us with
    | nil => simp at h
    | cons a t =>
      cases t with
      | nil => exact ⟨a, rfl⟩
      | cons b t2 => simp at h
  refine ⟨?_, rfl⟩
  simp only [processFile, process_transcript, sortUtterances, List.mergeSort_singleton,
    List.isEmpty_cons]
  rfl

theorem empty_fallback_summary_amended_witness :
    ([⟨"A", 0, 500, "x"⟩] : List Utterance).length = 1 ∧
    (processFile "a.mp3" (some [⟨"A", 0, 500, "x"⟩]) =
      some { file := "a.mp3", turns := 1, speaker_changes := 0, stats := emptyStats } ∧
    processFile "a.mp3" (some []) = none) :=
  ⟨rfl, empty_fallback_summary_amended "a.mp3" _ rfl⟩
